import Mathlib

/-!
Shallow embedding of the buster load-testing library (Go).

Sources embedded here:
- generators.go: `Generator`, `GeneratorType`, `MaxThroughput`, `ConstantRate`,
  `reporter`, `maxThroughputGenerator.Do`, `constantRateGenerator.Do`.
- buster.go: `Result`, `Bench.Run`, `Bench.AutoRun`, `STOP`, `Step`,
  `FixedStep`, `MaxLatency`, `us`.

Modelling conventions:
- `time.Duration` and `time.Time` are `Int` nanoseconds (Go int64; no value in
  this development approaches 2^63, so overflow is not modelled).
- Go `int64` division truncates toward zero: `Int.tdiv`.
- Go `float64` arithmetic is modelled over `ℚ` (the concrete rates used in the
  claims are exactly representable, so rounding differences do not arise);
  the Go conversion `time.Duration(x)` of a float truncates toward zero.
- The external hdrhistogram collaborator is out of scope (spec section 1); a
  private histogram is modelled as the list of recording calls made on it
  (`RecordValue` or `RecordCorrectedValue` with both arguments), and the
  aggregate histogram of a `Result` is abstracted by its `ValueAtQuantile`
  query function.
- Real time and goroutine scheduling are modelled by making each `Do` loop
  consume an ambient trace of iteration timestamps (the values `time.Now()`
  and the timer channels would deliver), and, for the synchronization skeleton
  of `Bench.Run`, by an explicit interleaving transition system.
- Go `error` values are abstracted as strings.
-/

namespace Buster

/-- Go `error` values, abstracted by their message. -/
abbrev Err := String

/-- `time.Duration` (and instants `time.Time`): int64 nanoseconds. -/
abbrev Duration := Int

/-- From buster.go: `func us(d time.Duration) int64 { return d.Nanoseconds() / 1000 }`.
Go int64 division truncates toward zero. -/
def us (d : Duration) : Int := Int.tdiv d 1000

/-- One recording call made on a private hdrhistogram: either
`RecordValue(v)` or `RecordCorrectedValue(v, expectedInterval)`.
The histogram itself is an external collaborator; its log of recording calls
is what the generator code controls, so it is what the embedding keeps. -/
inductive RecordEvent
  | value (v : Int)
  | corrected (v : Int) (expectedInterval : Int)
deriving DecidableEq, Repr

/-- From generators.go: `type reporter struct { hist *hdrhistogram.Histogram;
success, failure *uint64 }`. The private histogram is modelled by its list of
recording calls; the two shared atomic counters are modelled by the increments
this worker contributes (each worker only ever adds to them). -/
structure Reporter where
  hist : List RecordEvent
  success : Nat
  failure : Nat
deriving DecidableEq, Repr

/-- From buster.go: `type Result struct { Concurrency int; Elapsed time.Duration;
Success, Failure uint64; Latency *hdrhistogram.Histogram; Errors []error }`.
The merged `Latency` histogram is abstracted by its `ValueAtQuantile` query
(quantiles are float64, modelled over ℚ), which is all the core reads from it. -/
structure Result where
  concurrency : Int
  elapsed : Duration
  success : Nat
  failure : Nat
  valueAtQuantile : ℚ → Int
  errors : List Err

/-- From buster.go: `STOP = -1`, the sentinel a `Step` returns to stop a run. -/
def STOP : Int := -1

/-- From buster.go: `type Step func(last *Result) (nextConcurrency int)`; the
nil pointer on the first call is `none`. -/
abbrev Step := Option Result → Int

/-- From buster.go:
```
func FixedStep(min, max, step int) Step {
    return func(r *Result) int {
        if r == nil { return min }
        if r.Concurrency >= max { return STOP }
        return (r.Concurrency/step)*step + step
    }
}
``` -/
def FixedStep (min max step : Int) : Step := fun r =>
  match r with
  | none => min
  | some r =>
    if r.concurrency ≥ max then STOP
    else Int.tdiv r.concurrency step * step + step

/-- From buster.go:
```
func MaxLatency(q float64, max time.Duration, step Step) Step {
    return func(r *Result) int {
        if r != nil {
            ns := r.Latency.ValueAtQuantile(q) * 1000
            if ns > max.Nanoseconds() { return STOP }
        }
        return step(r)
    }
}
```
Histogram values are microseconds; `max` is nanoseconds. -/
def MaxLatency (q : ℚ) (max : Duration) (step : Step) : Step := fun r =>
  match r with
  | none => step none
  | some r =>
    if r.valueAtQuantile q * 1000 > max then STOP
    else step (some r)

/-- Successive values produced by a `Step` when each positive value `c` it
returns is answered with the `Result` `mk c`: the loop of successive calls
described in the spec (section 8). Stops after the first non-positive value;
`fuel` bounds the unrolling. -/
def callTraceGo (step : Step) (mk : Int → Result) : Nat → Int → List Int
  | 0, c => [c]
  | fuel + 1, c =>
    if 0 < c then c :: callTraceGo step mk fuel (step (some (mk c)))
    else [c]

/-- The full call sequence of a `Step`: first call with no previous `Result`,
then one call per escalation as in `Bench.AutoRun`. -/
def callTrace (step : Step) (mk : Int → Result) (fuel : Nat) : List Int :=
  callTraceGo step mk fuel (step none)

/-- A `Result` at concurrency `c` with no recorded latency and no errors. -/
def mkResult (c : Int) : Result :=
  { concurrency := c
    elapsed := 0
    success := 0
    failure := 0
    valueAtQuantile := fun _ => 0
    errors := [] }

/-- A `Result` at concurrency `c` whose latency histogram reads `2^c`
microseconds at every quantile (the scenario of spec section 8 for the
`MaxLatency` sequence, where p99 at concurrency `c` is `2^c` µs). -/
def p99Pow2Result (c : Int) : Result :=
  { concurrency := c
    elapsed := 0
    success := 0
    failure := 0
    valueAtQuantile := fun _ => 2 ^ c.toNat
    errors := [] }

/-- Go float64-to-integer conversion `time.Duration(x)` (here over ℚ):
truncation toward zero, `q.num` tdiv `q.den`. -/
def goTruncToInt (q : ℚ) : Int := Int.tdiv q.num (q.den : Int)

/-- From generators.go, the period computation in `ConstantRate`:
`period := time.Duration((1/Hz)*1000000) * time.Microsecond`
(nanoseconds; `time.Microsecond = 1000`). -/
def constantRatePeriod (hz : ℚ) : Duration :=
  goTruncToInt (1 / hz * 1000000) * 1000

/-- From generators.go: `type constantRateGenerator struct { reporter;
duration, period time.Duration }`. The factory returned by
`ConstantRate(duration, Hz)` stores `duration` and the period computed once,
before any generator is built; it takes no other input (in particular no
concurrency level). -/
structure ConstantRateGen where
  duration : Duration
  period : Duration
deriving DecidableEq, Repr

/-- From generators.go: `func ConstantRate(duration time.Duration, Hz float64)
GeneratorType`. Every generator the returned factory builds carries the same
`duration` and the same precomputed `period`. -/
def ConstantRate (duration : Duration) (hz : ℚ) : ConstantRateGen :=
  { duration := duration, period := constantRatePeriod hz }

/-- One iteration of the unthrottled loop `maxThroughputGenerator.Do`:
the instant `time.Now()` returned at the top of the loop (`start`), the
instant returned after `f()` came back (`finish`), and the error `f` returned. -/
structure MTIter where
  start : Int
  finish : Int
  res : Option Err
deriving DecidableEq, Repr

/-- From generators.go:
```
func (gen *maxThroughputGenerator) Do(f func() error) error {
    end := time.Now().Add(gen.duration)
    for {
        start := time.Now()
        if end.Before(start) { return nil }
        if err := f(); err != nil { atomic.AddUint64(gen.failure, 1); continue }
        elapsed := us(time.Now().Sub(start))
        if err := gen.hist.RecordValue(elapsed); err != nil { log.Println(err) }
        atomic.AddUint64(gen.success, 1)
    }
}
```
`endT` is the precomputed deadline instant `end`; the ambient clock readings
and operation outcomes are the trace. The second component is the value the
function returned (`some` of the returned error) or `none` while the loop is
still running when the trace ends. A rejected histogram value is only logged,
which the model drops. -/
def maxThroughputDo (endT : Int) : List MTIter → Reporter → Reporter × Option (Option Err)
  | [], rep => (rep, none)
  | it :: rest, rep =>
    if endT < it.start then (rep, some none)
    else
      match it.res with
      | some _ => maxThroughputDo endT rest { rep with failure := rep.failure + 1 }
      | none =>
          maxThroughputDo endT rest
            { rep with
              hist := rep.hist ++ [RecordEvent.value (us (it.finish - it.start))]
              success := rep.success + 1 }

/-- One `select` arrival in `constantRateGenerator.Do`: either a ticker fire
(the tick instant delivered on `ticker.C`, the instant after `f()` returned,
and the error `f` returned) or the `time.After(gen.duration)` timeout firing. -/
inductive CREvent
  | tick (start finish : Int) (res : Option Err)
  | timeout
deriving DecidableEq, Repr

/-- From generators.go:
```
func (gen *constantRateGenerator) Do(f func() error) error {
    ticker := time.NewTicker(gen.period)
    defer ticker.Stop()
    timeout := time.After(gen.duration)
    for {
        select {
        case start := <-ticker.C:
            if err := f(); err != nil { atomic.AddUint64(gen.failure, 1); continue }
            elapsed := us(time.Now().Sub(start))
            if err := gen.hist.RecordCorrectedValue(elapsed, us(gen.duration)); err != nil {
                log.Println(err)
            }
            atomic.AddUint64(gen.success, 1)
        case <-timeout:
            return nil
        }
    }
}
```
The expected-interval argument passed to `RecordCorrectedValue` is
`us(gen.duration)`, exactly as in the source. The ticker and timeout channel
arrivals are the trace (tick coalescing is a property of the Go runtime
ticker, outside this embedding). -/
def constantRateDo (duration : Duration) : List CREvent → Reporter → Reporter × Option (Option Err)
  | [], rep => (rep, none)
  | CREvent.timeout :: _, rep => (rep, some none)
  | CREvent.tick _ _ (some _) :: rest, rep =>
      constantRateDo duration rest { rep with failure := rep.failure + 1 }
  | CREvent.tick start finish none :: rest, rep =>
      constantRateDo duration rest
        { rep with
          hist := rep.hist ++ [RecordEvent.corrected (us (finish - start)) (us duration)]
          success := rep.success + 1 }

/-- An empty reporter, as built at worker start in `Bench.Run`. -/
def emptyReporter : Reporter := { hist := [], success := 0, failure := 0 }

/-- Functional model of buster.go `Bench.Run`. Worker `id` is summarised by
what it hands back to the orchestrator: the error its job returned
(`(job id).1`) and its final private reporter (`(job id).2`). The orchestrator
sums the two counters (the atomic increments of all workers), merges the
private histograms (here: the combined recording log, handed to the external
histogram whose quantile query `vaq` abstracts `Result.Latency`), and collects
every non-nil job error. The channel delivery order is scheduler-dependent;
the model fixes worker-id order, which leaves the membership and count of
`Errors` (all the claims use) unchanged. `elapsed` is the measured wall time,
a real-time input to the model. -/
def runModel (concurrency : Nat) (job : Nat → Option Err × Reporter)
    (vaq : List RecordEvent → ℚ → Int) (elapsed : Duration) : Result :=
  let outs := (List.range concurrency).map job
  { concurrency := (concurrency : Int)
    elapsed := elapsed
    success := (outs.map fun o => o.2.success).sum
    failure := (outs.map fun o => o.2.failure).sum
    valueAtQuantile := vaq (outs.foldl (fun acc o => acc ++ o.2.hist) [])
    errors := outs.filterMap fun o => o.1 }

/-- From buster.go:
```
func (b Bench) AutoRun(step Step, job Job) []Result {
    var results []Result
    concurrency := step(nil)
    for concurrency > 0 {
        result := b.Run(concurrency, job)
        results = append(results, result)
        concurrency = step(&result)
        if len(result.Errors) > 0 { break }
    }
    return results
}
```
`run c` abstracts `b.Run(c, job)` for the fixed bench and job (the Go local
`result := b.Run(concurrency, job)` is referred to three times below; the
model is pure, so repeating `run concurrency` is the same value); `fuel`
bounds the unrolling (`none` = the loop was still running when fuel ran out). -/
def autoRunLoop (run : Int → Result) (step : Step) :
    Nat → Int → List Result → Option (List Result)
  | 0, _, _ => none
  | fuel + 1, concurrency, results =>
    if 0 < concurrency then
      if 0 < (run concurrency).errors.length then some (results ++ [run concurrency])
      else
        autoRunLoop run step fuel (step (some (run concurrency)))
          (results ++ [run concurrency])
    else some results

/-- Entry point of the `AutoRun` model: first concurrency level from
`step(nil)`, empty result list. -/
def AutoRun (run : Int → Result) (step : Step) (fuel : Nat) : Option (List Result) :=
  autoRunLoop run step fuel (step none) []

/-- A scheduling choice in the interleaving model of `Bench.Run`: one step of
the orchestrator goroutine or of worker goroutine `i`. -/
inductive Act
  | main
  | worker (i : Nat)
deriving DecidableEq, Repr

/-- Synchronization skeleton of buster.go `Bench.Run`, modelling the `started`
WaitGroup (count 1), the spawn loop, and the worker program counters.
Worker pc: 0 = goroutine exists but is before `started.Wait()` (building its
reporter and generator), 1 = blocked at `started.Wait()`, 2 = past the barrier
(running `job`), 3 = done. Orchestrator pc: 0 = in the spawn loop,
1 = about to run `start := time.Now()`, 2 = about to run `started.Done()`,
3 = blocked in `finished.Wait()`, 4 = returned from the wait.
`startRecorded` is whether `start := time.Now()` has executed, i.e. whether
the elapsed-time window is open. -/
structure RunSync where
  mainPC : Nat
  spawned : Nat
  startedCount : Nat
  startRecorded : Bool
  wpc : List Nat
deriving DecidableEq, Repr

/-- Initial state of the `Bench.Run` synchronization skeleton for `n` workers:
nothing spawned, `started` WaitGroup at 1, window closed. -/
def initSync (n : Nat) : RunSync :=
  { mainPC := 0
    spawned := 0
    startedCount := 1
    startRecorded := false
    wpc := List.replicate n 0 }

/-- One transition of the interleaving model (`none` = the chosen goroutine is
blocked or already finished, so the action is not enabled). The orchestrator
spawns the `n` goroutines one at a time, records the start instant, calls
`started.Done()`, and passes `finished.Wait()` only when every worker is done.
A worker first reaches `started.Wait()` (0 → 1), passes it only once the
WaitGroup counter is zero (1 → 2), then finishes its job, channel sends and
`finished.Done()` (2 → 3). -/
def stepSync (n : Nat) (s : RunSync) : Act → Option RunSync
  | Act.main =>
    match s.mainPC with
    | 0 =>
        if s.spawned < n then some { s with spawned := s.spawned + 1 }
        else some { s with mainPC := 1 }
    | 1 => some { s with startRecorded := true, mainPC := 2 }
    | 2 => some { s with startedCount := s.startedCount - 1, mainPC := 3 }
    | 3 =>
        if s.wpc.all (fun p => p = 3) then some { s with mainPC := 4 }
        else none
    | _ => none
  | Act.worker i =>
    if i < s.spawned then
      match s.wpc[i]? with
      | some 0 => some { s with wpc := s.wpc.set i 1 }
      | some 1 =>
          if s.startedCount = 0 then some { s with wpc := s.wpc.set i 2 }
          else none
      | some 2 => some { s with wpc := s.wpc.set i 3 }
      | _ => none
    else none

/-- Run a schedule (list of scheduling choices) from a state; `none` when the
schedule picks a blocked goroutine. States reachable in `Bench.Run` are
exactly those reached from `initSync n` by some schedule. -/
def execSync (n : Nat) : List Act → RunSync → Option RunSync
  | [], s => some s
  | a :: rest, s =>
    match stepSync n s a with
    | none => none
    | some s2 => execSync n rest s2

/-- A trivial quantile query for the external aggregate histogram (used to
instantiate `runModel` at concrete inputs). -/
def vaq0 : List RecordEvent → ℚ → Int := fun _ _ => 0

/-- Comparison predicate following the spec wording (section 4.2: the start
barrier is released "after all workers are spawned and waiting"): in a state
with the elapsed window open, every worker has at least reached the start
barrier (worker pc 1 or beyond). Written from the spec, to be compared with
the transition system translated from the source. -/
def specWorkersWaitingWhenWindowOpens (s : RunSync) : Prop :=
  s.startRecorded = true → ∀ p ∈ s.wpc, 1 ≤ p

/-- Inductive invariant of the `Bench.Run` synchronization skeleton:
the orchestrator leaves the spawn loop only with all `n` workers spawned; the
window is open exactly from orchestrator pc 2 on; the `started` WaitGroup
counter is 1 until `started.Done()` (pc 3) and 0 after; and a worker can be
past the barrier only once the counter is 0. -/
def syncInv (n : Nat) (s : RunSync) : Prop :=
  (1 ≤ s.mainPC → s.spawned = n) ∧
  (s.startRecorded = true ↔ 2 ≤ s.mainPC) ∧
  (s.startedCount = if 3 ≤ s.mainPC then 0 else 1) ∧
  (∀ i p : Nat, s.wpc[i]? = some p → 2 ≤ p → s.startedCount = 0) ∧
  s.wpc.length = n ∧ s.spawned ≤ n

/-! Helper lemmas, shared by several claim theorems. -/

/-- The period stored by `ConstantRate` at 100 Hz is 10 ms. -/
theorem constantRatePeriod_100 : constantRatePeriod 100 = 10000000 := by
  have h : (1 / (100 : ℚ) * 1000000) = ((10000 : ℕ) : ℚ) := by norm_num
  unfold constantRatePeriod goTruncToInt
  rw [h, Rat.num_natCast, Rat.den_natCast]
  decide

/-- Whenever `maxThroughputGenerator.Do` returns, the value it returns is the
nil error. -/
theorem mtDo_ret_none (endT : Int) :
    ∀ (trace : List MTIter) (rep : Reporter) (r : Option Err),
      (maxThroughputDo endT trace rep).2 = some r → r = none := by
  intro trace
  induction trace with
  | nil => intro rep r h; simp [maxThroughputDo] at h
  | cons it rest ih =>
    intro rep r h
    by_cases hd : endT < it.start
    · simp [maxThroughputDo, hd] at h
      exact h.symm
    · cases hres : it.res with
      | some e =>
        simp [maxThroughputDo, hd, hres] at h
        exact ih _ r h
      | none =>
        simp [maxThroughputDo, hd, hres] at h
        exact ih _ r h

/-- Whenever `constantRateGenerator.Do` returns, the value it returns is the
nil error. -/
theorem crDo_ret_none (dur : Duration) :
    ∀ (trace : List CREvent) (rep : Reporter) (r : Option Err),
      (constantRateDo dur trace rep).2 = some r → r = none := by
  intro trace
  induction trace with
  | nil => intro rep r h; simp [constantRateDo] at h
  | cons ev rest ih =>
    intro rep r h
    cases ev with
    | timeout =>
      simp [constantRateDo] at h
      exact h.symm
    | tick start finish res =>
      cases res with
      | some e => exact ih _ r h
      | none => exact ih _ r h

/-- A `filterMap` keeps the full length when the function is `some` on every
element of the list. -/
theorem filterMap_length_of_isSome {α β : Type} (f : α → Option β) :
    ∀ l : List α, (∀ x ∈ l, (f x).isSome = true) → (l.filterMap f).length = l.length := by
  intro l
  induction l with
  | nil => intro _; rfl
  | cons x rest ih =>
    intro h
    have hx : (f x).isSome = true := h x (List.mem_cons_self x rest)
    obtain ⟨b, hb⟩ := Option.isSome_iff_exists.mp hx
    simp [List.filterMap_cons, hb, ih fun y hy => h y (List.mem_cons_of_mem x hy)]

/-- C3: `FixedStep(min, max, increment)` returns `min` on the initial call;
on a subsequent call it returns STOP when the previous concurrency is at
least `max`, and otherwise `floor(previous/increment)*increment + increment`
(Go division truncates toward zero, which is the floor on the nonnegative
values that occur); `FixedStep(1,100,10)` produces the call sequence
`1,10,20,30,40,50,60,70,80,90,100,STOP`. -/
theorem fixedStep_spec :
    (∀ a b inc : Int, FixedStep a b inc none = a) ∧
    (∀ (a b inc : Int) (r : Result), r.concurrency ≥ b → FixedStep a b inc (some r) = STOP) ∧
    (∀ (a b inc : Int) (r : Result), 0 ≤ r.concurrency → 0 < inc → r.concurrency < b →
      FixedStep a b inc (some r) = Int.fdiv r.concurrency inc * inc + inc) ∧
    callTrace (FixedStep 1 100 10) mkResult 20 =
      [1, 10, 20, 30, 40, 50, 60, 70, 80, 90, 100, STOP] := by
  refine ⟨fun a b inc => rfl, ?_, ?_, by decide⟩
  · intro a b inc r h
    simp [FixedStep, h]
  · intro a b inc r hr hinc hb
    have hne : ¬r.concurrency ≥ b := not_le.mpr hb
    have hdiv : Int.tdiv r.concurrency inc = Int.fdiv r.concurrency inc := by
      rw [Int.tdiv_eq_ediv hr hinc.le, Int.fdiv_eq_ediv _ hinc.le]
    simp [FixedStep, hne, hdiv]

/-- Witness for C3 at concrete inputs: at previous concurrency 100 the stop
branch fires; at previous concurrency 25 with increment 10 the next level is
floor(25/10)*10+10 = 30. -/
theorem fixedStep_spec_witness :
    FixedStep 1 100 10 (some (mkResult 100)) = STOP ∧
    FixedStep 1 100 10 (some (mkResult 25)) = Int.fdiv 25 10 * 10 + 10 :=
  ⟨fixedStep_spec.2.1 1 100 10 (mkResult 100) (by decide),
   fixedStep_spec.2.2.1 1 100 10 (mkResult 25) (by decide) (by decide) (by decide)⟩

/-- C4: `MaxLatency(q, threshold, inner)` delegates to `inner` on the initial
call; on a non-initial call it returns STOP — for every inner step, so without
consulting it — exactly when the previous latency histogram value at quantile
`q` (microseconds, hence the factor 1000 against the nanosecond threshold)
exceeds the threshold, and otherwise returns the inner value unchanged;
`MaxLatency(99, 40µs, FixedStep(1,100,5))` with p99 latency `2^c` µs at
concurrency `c` produces the call sequence `1,5,10,STOP`. -/
theorem maxLatency_spec :
    (∀ (q : ℚ) (m : Duration) (inner : Step), MaxLatency q m inner none = inner none) ∧
    (∀ (q : ℚ) (m : Duration) (inner : Step) (r : Result),
      r.valueAtQuantile q * 1000 > m → MaxLatency q m inner (some r) = STOP) ∧
    (∀ (q : ℚ) (m : Duration) (inner : Step) (r : Result),
      ¬r.valueAtQuantile q * 1000 > m → MaxLatency q m inner (some r) = inner (some r)) ∧
    callTrace (MaxLatency 99 40000 (FixedStep 1 100 5)) p99Pow2Result 20 =
      [1, 5, 10, STOP] := by
  refine ⟨fun q m inner => rfl, ?_, ?_, by decide⟩
  · intro q m inner r h
    simp [MaxLatency, h]
  · intro q m inner r h
    simp [MaxLatency, h]

/-- Witness for C4 at concrete inputs: at concurrency 10 the p99 of 1024 µs
exceeds the 40 µs threshold and MaxLatency stops; at concurrency 5 the p99 of
32 µs does not, and the inner step value passes through unchanged. -/
theorem maxLatency_spec_witness :
    MaxLatency 99 40000 (FixedStep 1 100 5) (some (p99Pow2Result 10)) = STOP ∧
    MaxLatency 99 40000 (FixedStep 1 100 5) (some (p99Pow2Result 5)) =
      FixedStep 1 100 5 (some (p99Pow2Result 5)) :=
  ⟨maxLatency_spec.2.1 99 40000 (FixedStep 1 100 5) (p99Pow2Result 10) (by decide),
   maxLatency_spec.2.2.1 99 40000 (FixedStep 1 100 5) (p99Pow2Result 5) (by decide)⟩

/-- C1 (code evaluated at the failing input): with `ConstantRate(1s, 100 Hz)`
the configured period is 10 ms, i.e. 10000 µs; yet for a successful operation
(here one taking 30 ms from its tick) the corrected-value recording the
histogram receives carries `us(gen.duration)` = 1000000 µs as its
expected-interval argument, not the period 10000 µs. -/
theorem constantRateDo_expected_interval_is_duration :
    constantRateDo (ConstantRate 1000000000 100).duration
        [CREvent.tick 0 30000000 none, CREvent.timeout] emptyReporter =
      ({ hist := [RecordEvent.corrected 30000 1000000], success := 1, failure := 0 },
        some none) ∧
    us (ConstantRate 1000000000 100).period = 10000 ∧
    (1000000 : Int) ≠ 10000 := by
  refine ⟨by decide, ?_, by decide⟩
  show us (constantRatePeriod 100) = 10000
  rw [constantRatePeriod_100]
  decide

/-- C2 counterexample: the period computed by `ConstantRate` depends only on
the rate, never on a concurrency level. At target rate 100 Hz it is 10^7 ns
(= 1/100 s); for a run at concurrency level 2 the claimed value
`concurrency / targetRateHz` seconds is 2/100 s = 2·10^7 ns, which is not the
computed period. -/
theorem constantRate_period_not_concurrency_over_rate :
    (ConstantRate 1000000000 100).period = 10000000 ∧
    ¬((10000000 : ℚ) = 2 / 100 * 1000000000) := by
  constructor
  · show constantRatePeriod 100 = 10000000
    exact constantRatePeriod_100
  · norm_num

/-- C2 as amended: for every duration and positive target rate, the period
computed once by `ConstantRate` is `1/targetRateHz` seconds truncated to a
whole number of microseconds (so it lies within 1000 ns below the exact
`1/targetRateHz` seconds), and it is the same whatever duration — and in
particular whatever concurrency level — the run uses. -/
theorem constantRate_period_spec (d d2 : Duration) (hz : ℚ) (h : 0 < hz) :
    ((ConstantRate d hz).period : ℚ) ≤ 1 / hz * 1000000000 ∧
    1 / hz * 1000000000 - 1000 < ((ConstantRate d hz).period : ℚ) ∧
    (ConstantRate d hz).period = (ConstantRate d2 hz).period := by
  have hq : (0 : ℚ) < 1 / hz * 1000000 := by positivity
  have htr : goTruncToInt (1 / hz * 1000000) = ⌊(1 / hz * 1000000 : ℚ)⌋ := by
    unfold goTruncToInt
    rw [Int.tdiv_eq_ediv (Rat.num_nonneg.mpr hq.le) (Int.ofNat_nonneg _)]
    exact Rat.floor_def.symm
  have hper : (ConstantRate d hz).period = ⌊(1 / hz * 1000000 : ℚ)⌋ * 1000 := by
    show constantRatePeriod hz = _
    rw [constantRatePeriod, htr]
  have hfl : ((⌊(1 / hz * 1000000 : ℚ)⌋ : ℚ)) ≤ 1 / hz * 1000000 :=
    Int.floor_le _
  have hfl2 : (1 / hz * 1000000 : ℚ) - 1 < (⌊(1 / hz * 1000000 : ℚ)⌋ : ℚ) :=
    Int.sub_one_lt_floor _
  refine ⟨?_, ?_, rfl⟩
  · rw [hper]
    push_cast
    nlinarith [hfl]
  · rw [hper]
    push_cast
    nlinarith [hfl2]

/-- Witness for the amended C2 at duration 1 s and rate 100 Hz. -/
theorem constantRate_period_spec_witness :
    (0 : ℚ) < 100 ∧
    ((ConstantRate 1000000000 100).period : ℚ) ≤ 1 / 100 * 1000000000 :=
  ⟨by norm_num, (constantRate_period_spec 1000000000 5 100 (by norm_num)).1⟩

/-- C6 counterexample: with the deadline at instant 5, an iteration whose
`time.Now()` reading is exactly 5 (now = deadline) still runs the operation —
the state gains a success and a recorded value and the loop goes on — whereas
the claim says the loop ends, with no operation started, as soon as
now ≥ deadline, which here would mean returning the untouched reporter. -/
theorem maxThroughputDo_runs_op_at_deadline :
    maxThroughputDo 5 [MTIter.mk 5 6 none] emptyReporter =
      ({ hist := [RecordEvent.value 0], success := 1, failure := 0 }, none) ∧
    ¬maxThroughputDo 5 [MTIter.mk 5 6 none] emptyReporter = (emptyReporter, some none) := by
  constructor
  · decide
  · decide

/-- C6 as amended: the unthrottled loop checks the deadline before each
iteration and ends, returning the nil error, as soon as now is strictly after
the deadline (`end.Before(start)`); while every reading is at or before the
deadline the loop keeps running (so an operation may still start exactly at
the deadline instant), and whenever `Do` returns, it returns the nil error. -/
theorem maxThroughputDo_deadline_spec (endT : Int) :
    (∀ (it : MTIter) (rest : List MTIter) (rep : Reporter),
      endT < it.start → maxThroughputDo endT (it :: rest) rep = (rep, some none)) ∧
    (∀ (trace : List MTIter) (rep : Reporter),
      (∀ it ∈ trace, it.start ≤ endT) → (maxThroughputDo endT trace rep).2 = none) ∧
    (∀ (trace : List MTIter) (rep : Reporter) (r : Option Err),
      (maxThroughputDo endT trace rep).2 = some r → r = none) := by
  refine ⟨?_, ?_, mtDo_ret_none endT⟩
  · intro it rest rep h
    simp [maxThroughputDo, h]
  · intro trace
    induction trace with
    | nil => intro rep _; rfl
    | cons it rest ih =>
      intro rep h
      have h1 : ¬endT < it.start := not_lt.mpr (h it (List.mem_cons_self it rest))
      have h2 : ∀ x ∈ rest, x.start ≤ endT := fun x hx => h x (List.mem_cons_of_mem it hx)
      cases hres : it.res with
      | some e => simp [maxThroughputDo, h1, hres, ih _ h2]
      | none => simp [maxThroughputDo, h1, hres, ih _ h2]

/-- Witness for the amended C6: an iteration reading now = 6 past the
deadline 5 returns immediately with the nil error; a trace whose only reading
is at the deadline itself leaves the loop still running. -/
theorem maxThroughputDo_deadline_spec_witness :
    maxThroughputDo 5 [MTIter.mk 6 7 none] emptyReporter = (emptyReporter, some none) ∧
    (maxThroughputDo 5 [MTIter.mk 5 6 none] emptyReporter).2 = none :=
  ⟨(maxThroughputDo_deadline_spec 5).1 (MTIter.mk 6 7 none) [] emptyReporter (by decide),
   (maxThroughputDo_deadline_spec 5).2.1 [MTIter.mk 5 6 none] emptyReporter (by decide)⟩

/-- C7: under both rate policies an operation call that returns an error
makes the loop continue with only the failure counter incremented — the
success counter and the recorded-value log are untouched — and every entry of
`Result.Errors` comes from some worker-job return value, so per-operation
failures never surface there. -/
theorem op_error_only_failure :
    (∀ (endT : Int) (it : MTIter) (rest : List MTIter) (rep : Reporter) (e : Err),
      it.res = some e → it.start ≤ endT →
      maxThroughputDo endT (it :: rest) rep =
        maxThroughputDo endT rest { rep with failure := rep.failure + 1 }) ∧
    (∀ (dur : Duration) (start finish : Int) (e : Err) (rest : List CREvent) (rep : Reporter),
      constantRateDo dur (CREvent.tick start finish (some e) :: rest) rep =
        constantRateDo dur rest { rep with failure := rep.failure + 1 }) ∧
    (∀ (N : Nat) (job : Nat → Option Err × Reporter) (vaq : List RecordEvent → ℚ → Int)
      (el : Duration) (e : Err),
      e ∈ (runModel N job vaq el).errors → ∃ id, id < N ∧ (job id).1 = some e) := by
  refine ⟨?_, fun dur start finish e rest rep => rfl, ?_⟩
  · intro endT it rest rep e hres hd
    simp [maxThroughputDo, not_lt.mpr hd, hres]
  · intro N job vaq el e he
    have : e ∈ ((List.range N).map job).filterMap fun o => o.1 := he
    rw [List.mem_filterMap] at this
    obtain ⟨o, ho, hoe⟩ := this
    rw [List.mem_map] at ho
    obtain ⟨id, hid, rfl⟩ := ho
    exact ⟨id, List.mem_range.mp hid, hoe⟩

/-- Witness for C7: a failing operation at instant 1 (before the deadline 10)
continues the loop with one more failure; the single error of a one-worker run
whose job returns an error is that job-level return. -/
theorem op_error_only_failure_witness :
    maxThroughputDo 10 [MTIter.mk 1 2 (some "boom")] emptyReporter =
      maxThroughputDo 10 [] { emptyReporter with failure := emptyReporter.failure + 1 } ∧
    ∃ id, id < 1 ∧ ((fun _ => ((some "boom" : Option Err), emptyReporter)) id).1 = some "boom" :=
  ⟨op_error_only_failure.1 10 (MTIter.mk 1 2 (some "boom")) [] emptyReporter "boom"
      rfl (by decide),
   op_error_only_failure.2.2 1 (fun _ => (some "boom", emptyReporter)) vaq0 0 "boom"
      (by decide)⟩

/-- C8: a run at concurrency N collects at most one error slot per worker
(`len(Errors) ≤ N`), and when every worker-job returns a fatal error the
count is exactly N. -/
theorem run_errors_bounded (N : Nat) (job : Nat → Option Err × Reporter)
    (vaq : List RecordEvent → ℚ → Int) (el : Duration) (hN : 1 ≤ N) :
    (runModel N job vaq el).errors.length ≤ N ∧
    ((∀ id, id < N → ((job id).1).isSome = true) →
      (runModel N job vaq el).errors.length = N) := by
  constructor
  · calc ((runModel N job vaq el).errors).length
        ≤ ((List.range N).map job).length := List.length_filterMap_le _ _
      _ = N := by rw [List.length_map, List.length_range]
  · intro h
    have hall : ∀ o ∈ (List.range N).map job, (o.1).isSome = true := by
      intro o ho
      rw [List.mem_map] at ho
      obtain ⟨id, hid, rfl⟩ := ho
      exact h id (List.mem_range.mp hid)
    calc ((runModel N job vaq el).errors).length
        = ((List.range N).map job).length :=
          filterMap_length_of_isSome _ _ hall
      _ = N := by rw [List.length_map, List.length_range]

/-- Witness for C8 at N = 2 with a job that always returns a fatal error:
the error list has exactly 2 entries. -/
theorem run_errors_bounded_witness :
    (runModel 2 (fun _ => (some "boom", emptyReporter)) vaq0 0).errors.length ≤ 2 ∧
    (runModel 2 (fun _ => (some "boom", emptyReporter)) vaq0 0).errors.length = 2 :=
  ⟨(run_errors_bounded 2 (fun _ => (some "boom", emptyReporter)) vaq0 0 (by decide)).1,
   (run_errors_bounded 2 (fun _ => (some "boom", emptyReporter)) vaq0 0 (by decide)).2
      (fun id _ => rfl)⟩

/-- C10: both generator loops only ever return the nil error (their single
return site is `return nil`), and a run whose every worker-job returns the
nil value — in particular a job whose body is exactly `return gen.Do(f)` —
contributes no entry to `Result.Errors`. -/
theorem do_returns_nil :
    (∀ (endT : Int) (trace : List MTIter) (rep : Reporter) (r : Option Err),
      (maxThroughputDo endT trace rep).2 = some r → r = none) ∧
    (∀ (dur : Duration) (trace : List CREvent) (rep : Reporter) (r : Option Err),
      (constantRateDo dur trace rep).2 = some r → r = none) ∧
    (∀ (N : Nat) (job : Nat → Option Err × Reporter) (vaq : List RecordEvent → ℚ → Int)
      (el : Duration),
      (∀ id, (job id).1 = none) → (runModel N job vaq el).errors = []) := by
  refine ⟨mtDo_ret_none, crDo_ret_none, ?_⟩
  intro N job vaq el h
  show ((List.range N).map job).filterMap (fun o => o.1) = []
  rw [List.filterMap_eq_nil_iff]
  intro o ho
  rw [List.mem_map] at ho
  obtain ⟨id, _, rfl⟩ := ho
  exact h id

/-- Witness for C10: a max-throughput loop returning at its deadline returns
the nil error, a constant-rate loop returning at its timeout returns the nil
error, and a one-worker run whose job returns the nil value has no errors. -/
theorem do_returns_nil_witness :
    (maxThroughputDo 5 [MTIter.mk 6 7 none] emptyReporter).2 = some none ∧
    ((none : Option Err) = none ∧ (none : Option Err) = none) ∧
    (runModel 1 (fun _ => ((none : Option Err), emptyReporter)) vaq0 0).errors = [] :=
  ⟨by decide,
   ⟨do_returns_nil.1 5 [MTIter.mk 6 7 none] emptyReporter none (by decide),
    do_returns_nil.2.1 5 [CREvent.timeout] emptyReporter none (by decide)⟩,
   do_returns_nil.2.2 1 (fun _ => (none, emptyReporter)) vaq0 0 (fun _ => rfl)⟩

/-- Loop invariant of the `AutoRun` model: starting from an accumulator of
error-free results that are all outputs of `run` at positive levels, a
terminating loop yields a list in which only the last element can carry
errors, every element is a `run` output at a positive level, and the loop
ended either immediately (non-positive level, list unchanged) or at a last
result that carries errors or whose step value is non-positive. -/
theorem autoRunLoop_inv (run : Int → Result) (step : Step) :
    ∀ (fuel : Nat) (c : Int) (acc res : List Result),
      autoRunLoop run step fuel c acc = some res →
      (∀ r ∈ acc, r.errors = []) →
      (∀ r ∈ acc, ∃ c0 : Int, 0 < c0 ∧ r = run c0) →
      ((∀ (i : Nat) (r : Result), res[i]? = some r → i + 1 < res.length → r.errors = []) ∧
       (∀ r ∈ res, ∃ c0 : Int, 0 < c0 ∧ r = run c0) ∧
       ((res = acc ∧ c ≤ 0) ∨
        ∃ last, res.getLast? = some last ∧
          (last.errors ≠ [] ∨
            (step (some last) ≤ 0 ∧ ∃ c0 : Int, 0 < c0 ∧ last = run c0)))) := by
  intro fuel
  induction fuel with
  | zero => intro c acc res h _ _; simp [autoRunLoop] at h
  | succ n ih =>
    intro c acc res h hclean himg
    simp only [autoRunLoop] at h
    by_cases hc : 0 < c
    · rw [if_pos hc] at h
      by_cases herr : 0 < (run c).errors.length
      · rw [if_pos herr] at h
        have hres : res = acc ++ [run c] := (Option.some.inj h).symm
        subst hres
        refine ⟨?_, ?_, Or.inr ⟨run c, List.getLast?_concat _, Or.inl ?_⟩⟩
        · intro i r hir hilen
          rw [List.length_append, List.length_singleton] at hilen
          have hi : i < acc.length := by omega
          rw [List.getElem?_append, if_pos hi] at hir
          rw [List.getElem?_eq_some] at hir
          obtain ⟨hlt, hget⟩ := hir
          exact hclean r (hget ▸ List.getElem_mem hlt)
        · intro r hr
          rw [List.mem_append] at hr
          rcases hr with hr | hr
          · exact himg r hr
          · exact ⟨c, hc, List.mem_singleton.mp hr⟩
        · exact List.length_pos.mp herr
      · rw [if_neg herr] at h
        have hclean2 : ∀ r ∈ acc ++ [run c], r.errors = [] := by
          intro r hr
          rw [List.mem_append] at hr
          rcases hr with hr | hr
          · exact hclean r hr
          · rw [List.mem_singleton.mp hr]
            exact List.length_eq_zero.mp (Nat.eq_zero_of_not_pos herr)
        have himg2 : ∀ r ∈ acc ++ [run c], ∃ c0 : Int, 0 < c0 ∧ r = run c0 := by
          intro r hr
          rw [List.mem_append] at hr
          rcases hr with hr | hr
          · exact himg r hr
          · exact ⟨c, hc, List.mem_singleton.mp hr⟩
        obtain ⟨ha, hb, hd⟩ := ih (step (some (run c))) (acc ++ [run c]) res h hclean2 himg2
        refine ⟨ha, hb, ?_⟩
        rcases hd with ⟨hres, hnext⟩ | hd
        · subst hres
          exact Or.inr ⟨run c, List.getLast?_concat _, Or.inr ⟨hnext, c, hc, rfl⟩⟩
        · exact Or.inr hd
    · rw [if_neg hc] at h
      have hres : res = acc := (Option.some.inj h).symm
      subst hres
      refine ⟨?_, himg, Or.inl ⟨rfl, not_lt.mp hc⟩⟩
      intro i r hir _
      rw [List.getElem?_eq_some] at hir
      obtain ⟨hlt, hget⟩ := hir
      exact hclean r (hget ▸ List.getElem_mem hlt)

/-- C5: for a step that respects the Step contract of the spec (it returns a
positive level or a negative stop sentinel, never 0, on the initial call and
on every result a run can produce), a terminating `AutoRun` yields a result
list in which no result follows one with job-level errors — the loop stops
appending as soon as a result has any error, whatever the step said next —
and when the last result is error-free (or the list is empty) the loop
stopped exactly because the step returned the negative STOP sentinel. -/
theorem autoRun_stop_spec (run : Int → Result) (step : Step) (fuel : Nat) (res : List Result)
    (hex : AutoRun run step fuel = some res)
    (h0 : step none ≠ 0)
    (hs : ∀ c : Int, 0 < c → step (some (run c)) ≠ 0) :
    (∀ (i : Nat) (r : Result), res[i]? = some r → i + 1 < res.length → r.errors = []) ∧
    (res = [] → step none < 0) ∧
    (∀ last, res.getLast? = some last → last.errors = [] → step (some last) < 0) := by
  obtain ⟨ha, hb, hd⟩ :=
    autoRunLoop_inv run step fuel (step none) [] res hex (by simp) (by simp)
  refine ⟨ha, ?_, ?_⟩
  · intro hnil
    rcases hd with ⟨_, hle⟩ | ⟨last, hl, _⟩
    · exact lt_of_le_of_ne hle h0
    · rw [hnil] at hl
      simp at hl
  · intro last hl herrs
    rcases hd with ⟨hres, _⟩ | ⟨last2, hl2, hcase⟩
    · subst hres
      simp at hl
    · rw [hl] at hl2
      obtain rfl : last2 = last := (Option.some.inj hl2).symm
      rcases hcase with hne | ⟨hle, c0, hc0, hrun⟩
      · exact absurd herrs hne
      · rw [hrun] at hle ⊢
        exact lt_of_le_of_ne hle (hs c0 hc0)

/-- Witness for C5: `FixedStep(1,3,1)` with error-free runs stops after the
run at concurrency 3, where the step returns the negative STOP sentinel. -/
theorem autoRun_stop_spec_witness :
    FixedStep 1 3 1 (some (mkResult 3)) < 0 :=
  have hex : AutoRun (fun c => mkResult c) (FixedStep 1 3 1) 10 =
      some [mkResult 1, mkResult 2, mkResult 3] := by rfl
  have h0 : FixedStep 1 3 1 none ≠ 0 := by decide
  have hs : ∀ c : Int, 0 < c → FixedStep 1 3 1 (some (mkResult c)) ≠ 0 := by
    intro c hc
    show (if c ≥ 3 then STOP else Int.tdiv c 1 * 1 + 1) ≠ 0
    by_cases h3 : c ≥ 3
    · rw [if_pos h3]
      decide
    · rw [if_neg h3, Int.tdiv_one]
      omega
  (autoRun_stop_spec (fun c => mkResult c) (FixedStep 1 3 1) 10
      [mkResult 1, mkResult 2, mkResult 3] hex h0 hs).2.2
    (mkResult 3) rfl rfl

/-- The invariant holds in the initial state of the `Bench.Run` skeleton. -/
theorem syncInv_init (n : Nat) : syncInv n (initSync n) := by
  refine ⟨?_, ?_, ?_, ?_, ?_, ?_⟩
  · intro h
    simp [initSync] at h
  · simp [initSync]
  · simp [initSync]
  · intro i p hp h2p
    rw [show (initSync n).wpc = List.replicate n 0 from rfl, List.getElem?_replicate] at hp
    by_cases hi : i < n
    · rw [if_pos hi] at hp
      have hp0 : p = 0 := (Option.some.inj hp).symm
      omega
    · rw [if_neg hi] at hp
      exact absurd hp (by simp)
  · simp [initSync]
  · simp [initSync]

/-- Every enabled transition of the `Bench.Run` skeleton preserves the
invariant. -/
theorem stepSync_inv (n : Nat) (s s2 : RunSync) (a : Act)
    (h : stepSync n s a = some s2) (hi : syncInv n s) : syncInv n s2 := by
  obtain ⟨h1, h2, h3, h4, h5, h6⟩ := hi
  cases a with
  | main =>
    simp only [stepSync] at h
    split at h
    · -- s.mainPC = 0
      rename_i hpc
      split at h
      · -- still spawning
        rename_i hlt
        obtain rfl := (Option.some.inj h).symm
        refine ⟨?_, ?_, ?_, ?_, ?_, ?_⟩ <;> dsimp only
        · rw [hpc]
          intro hge
          omega
        · exact h2
        · exact h3
        · exact h4
        · exact h5
        · omega
      · -- leave the spawn loop
        rename_i hge
        obtain rfl := (Option.some.inj h).symm
        refine ⟨?_, ?_, ?_, ?_, ?_, ?_⟩ <;> dsimp only
        · intro _
          omega
        · rw [h2, hpc]
          decide
        · rw [h3, hpc]
          decide
        · exact h4
        · exact h5
        · exact h6
    · -- s.mainPC = 1: record the start instant
      rename_i hpc
      obtain rfl := (Option.some.inj h).symm
      refine ⟨?_, ?_, ?_, ?_, ?_, ?_⟩ <;> dsimp only
      · intro _
        exact h1 (by omega)
      · decide
      · rw [h3, hpc]
        decide
      · intro i p hp h2p
        have hc := h4 i p hp h2p
        rw [h3, hpc] at hc
        simp at hc
      · exact h5
      · exact h6
    · -- s.mainPC = 2: started.Done()
      rename_i hpc
      obtain rfl := (Option.some.inj h).symm
      refine ⟨?_, ?_, ?_, ?_, ?_, ?_⟩ <;> dsimp only
      · intro _
        exact h1 (by omega)
      · rw [h2, hpc]
        decide
      · rw [h3, hpc]
        decide
      · intro i p hp h2p
        rw [h3, hpc]
        decide
      · exact h5
      · exact h6
    · -- s.mainPC = 3: finished.Wait() passes
      rename_i hpc
      split at h
      · obtain rfl := (Option.some.inj h).symm
        refine ⟨?_, ?_, ?_, ?_, ?_, ?_⟩ <;> dsimp only
        · intro _
          exact h1 (by omega)
        · rw [h2, hpc]
          decide
        · rw [h3, hpc]
          decide
        · intro i p hp h2p
          rw [h3, hpc]
          decide
        · exact h5
        · exact h6
      · exact absurd h (by simp)
    · exact absurd h (by simp)
  | worker i =>
    simp only [stepSync] at h
    split at h
    · -- i < s.spawned
      split at h
      · -- wpc i = 0: the worker reaches started.Wait()
        rename_i hw
        obtain rfl := (Option.some.inj h).symm
        refine ⟨?_, ?_, ?_, ?_, ?_, ?_⟩ <;> dsimp only
        · exact h1
        · exact h2
        · exact h3
        · intro j p hp h2p
          rw [List.getElem?_set] at hp
          by_cases hij : i = j
          · rw [if_pos hij] at hp
            split at hp
            · have hp1 : p = 1 := (Option.some.inj hp).symm
              omega
            · exact absurd hp (by simp)
          · rw [if_neg hij] at hp
            exact h4 j p hp h2p
        · rw [List.length_set]
          exact h5
        · exact h6
      · -- wpc i = 1 and startedCount = 0: the worker passes the barrier
        rename_i hw
        split at h
        · rename_i hcount
          obtain rfl := (Option.some.inj h).symm
          refine ⟨?_, ?_, ?_, ?_, ?_, ?_⟩ <;> dsimp only
          · exact h1
          · exact h2
          · exact h3
          · intro j p hp h2p
            exact hcount
          · rw [List.length_set]
            exact h5
          · exact h6
        · exact absurd h (by simp)
      · -- wpc i = 2: the worker finishes
        rename_i hw
        obtain rfl := (Option.some.inj h).symm
        refine ⟨?_, ?_, ?_, ?_, ?_, ?_⟩ <;> dsimp only
        · exact h1
        · exact h2
        · exact h3
        · intro j p hp h2p
          exact h4 i 2 hw (by omega)
        · rw [List.length_set]
          exact h5
        · exact h6
      · exact absurd h (by simp)
    · exact absurd h (by simp)

/-- The invariant holds in every state reachable by a schedule. -/
theorem execSync_inv (n : Nat) :
    ∀ (acts : List Act) (s s2 : RunSync),
      execSync n acts s = some s2 → syncInv n s → syncInv n s2 := by
  intro acts
  induction acts with
  | nil =>
    intro s s2 h hi
    exact (Option.some.inj h) ▸ hi
  | cons a rest ih =>
    intro s s2 h hi
    simp only [execSync] at h
    cases hst : stepSync n s a with
    | none =>
      rw [hst] at h
      exact absurd h (by simp)
    | some s3 =>
      rw [hst] at h
      exact ih s3 s2 h (stepSync_inv n s s3 a hst hi)

/-- C9 counterexample: a schedule of `Bench.Run` with one worker in which the
orchestrator spawns the worker, leaves the spawn loop and records the start
instant before the worker goroutine has taken a single step. In the resulting
reachable state the elapsed window is open while the worker (program counter
0) has not yet reached the start barrier — the claim that the window opens
only once every worker is waiting at the barrier fails. -/
theorem run_start_before_workers_waiting :
    execSync 1 [Act.main, Act.main, Act.main] (initSync 1) =
      some { mainPC := 2, spawned := 1, startedCount := 1, startRecorded := true,
              wpc := [0] } ∧
    ¬specWorkersWaitingWhenWindowOpens
        { mainPC := 2, spawned := 1, startedCount := 1, startRecorded := true,
          wpc := [0] } := by
  constructor
  · decide
  · unfold specWorkersWaitingWhenWindowOpens
    decide

/-- C9 as amended: in every reachable state of the `Bench.Run` skeleton, when
the elapsed window has opened all N workers have been spawned (the spawn loop
precedes `start := time.Now()`), and no worker is past the start barrier —
in particular none has begun its job — unless the window is already open. The
workers need not yet be waiting at the barrier when the window opens, so
goroutine startup scheduling can fall inside the measured window; what the
barrier excludes is the orchestrator spawn cost and any job work before the
start instant. -/
theorem run_window_after_spawn_before_jobs (n : Nat) (acts : List Act) (s : RunSync)
    (h : execSync n acts (initSync n) = some s) :
    (s.startRecorded = true → s.spawned = n) ∧
    (∀ i p : Nat, s.wpc[i]? = some p → 2 ≤ p → s.startRecorded = true) := by
  obtain ⟨h1, h2, h3, h4, _, _⟩ := execSync_inv n acts (initSync n) s h (syncInv_init n)
  constructor
  · intro hr
    have hm := h2.mp hr
    exact h1 (by omega)
  · intro i p hp h2p
    have hc := h4 i p hp h2p
    rw [h3] at hc
    by_cases hm : 3 ≤ s.mainPC
    · exact h2.mpr (by omega)
    · rw [if_neg hm] at hc
      exact absurd hc one_ne_zero

/-- Witness for the amended C9 on the schedule of the counterexample state:
the window is open there, and indeed the single worker has been spawned. -/
theorem run_window_after_spawn_before_jobs_witness :
    ({ mainPC := 2, spawned := 1, startedCount := 1, startRecorded := true,
        wpc := [0] } : RunSync).spawned = 1 :=
  (run_window_after_spawn_before_jobs 1 [Act.main, Act.main, Act.main]
      { mainPC := 2, spawned := 1, startedCount := 1, startRecorded := true, wpc := [0] }
      (by decide)).1 rfl

end Buster
